import Mathlib

/-!
# IntelliMatch — verification of the CSV deduplication pipeline

Shallow embedding of `src/main.py` (`CSVDeduplicator`). The entity-resolution
core (`dedupe.Dedupe.match` / `StaticDedupe`) is an external library dependency
that is not part of this repository; where a claim depends on its behaviour the
corresponding definition is modelled from the spec and marked as such in its
doc comment. Everything else is translated directly from `src/main.py`.

Conventions of the embedding:
* A CSV row (as produced by `csv.DictReader`) is an association list of
  column-name/value pairs, `Row`.
* A Python `dict` keyed by strings is an insertion-ordered association list
  with overwrite-on-duplicate semantics (`dictInsert`).
* Python exceptions are an explicit error type `PyError` via `Except`.
* Match probabilities / confidence scores are `Rat` (the spec constrains them
  to [0,1]; the embedding uses exact rationals in place of floats).
* File-handle usage and the interactive labeling call are recorded as an
  explicit event trace (`Event`), so resource-release and
  "oracle never invoked" properties are statable.
-/

deriving instance DecidableEq for Except

namespace IntelliMatch

/-- Python-level errors surfaced by the pipeline.  `keyError` is Python's
built-in `KeyError`; the remaining constructors are the error taxonomy the
spec names (`DataFormatError`, `SchemaError`, ...), present so that theorems
can state that the code does or does not raise them. -/
inductive PyError where
  | keyError (k : String)
  | ioError
  | dataFormatError
  | schemaError
  | insufficientDataError
  | modelCompatibilityError
  deriving DecidableEq, Repr

/-- A CSV row as `csv.DictReader` yields it: column name/value pairs in
header order. -/
abbrev Row := List (String × String)

/-- An in-memory record: field name ↦ (normalized) value. -/
abbrev Record := List (String × String)

/-- The keyed record collection `data_d` built by `read_data`: a Python dict
from raw row identifier to record, as an insertion-ordered association list. -/
abbrev Data := List (String × Record)

/-- `row[k]` lookup in an association list (Python dict indexing, first
matching key). -/
def fieldValue (row : List (String × String)) (k : String) : Option String :=
  (row.find? (fun kv => kv.1 == k)).map (fun kv => kv.2)

/-- Python `str.strip()`: drop whitespace from both ends of the string
(characters in the middle are untouched). -/
def pyStrip (s : String) : String :=
  ⟨((s.data.dropWhile Char.isWhitespace).reverse.dropWhile Char.isWhitespace).reverse⟩

/-- Python `str.lower()`: lower-case every character. -/
def pyLower (s : String) : String :=
  ⟨s.data.map Char.toLower⟩

/-- The per-value normalization `v.strip().lower()` from `read_data`
(line 66 of `src/main.py`): trim surrounding whitespace, then lower-case.
Internal whitespace is untouched. -/
def normalize (s : String) : String := pyLower (pyStrip s)

/-- `clean_row = [(k, v.strip().lower()) for (k, v) in row.items()]`. -/
def cleanRow (row : Row) : Record :=
  row.map (fun kv => (kv.1, normalize kv.2))

/-- `d[k] = v` on a Python dict: overwrite in place if the key is present,
append otherwise. -/
def dictInsert (d : Data) (k : String) (v : Record) : Data :=
  if d.any (fun p => p.1 == k) then
    d.map (fun p => if p.1 == k then (k, v) else p)
  else d ++ [(k, v)]

/-- The loop body of `read_data`: for each row, clean it, read the raw
`row["id"]` (raising `KeyError` when the column is absent) and store the
cleaned row under that raw key. -/
def readDataAux : List Row → Data → Except PyError Data
  | [], d => Except.ok d
  | row :: rest, d =>
    match fieldValue row "id" with
    | none => Except.error (PyError.keyError "id")
    | some rid => readDataAux rest (dictInsert d rid (cleanRow row))

/-- `CSVDeduplicator.read_data` (src/main.py lines 52–69): builds `data_d`
from the parsed CSV rows. -/
def read_data (rows : List Row) : Except PyError Data :=
  readDataAux rows []

/-- A dedupe field definition `String(field, has_missing=True)`. -/
structure FieldDef where
  field : String
  hasMissing : Bool
  deriving DecidableEq, Repr

/-- `CSVDeduplicator.define_fields` (src/main.py lines 71–81): one
`String(field, has_missing=True)` per configured field name.  It consults
neither the loaded data nor anything else. -/
def define_fields (fields : List String) : List FieldDef :=
  fields.map (fun f => { field := f, hasMissing := true })

/-! ## Clustering engine (modelled from the spec)

`self.deduper.match(self.data, 0.5)` delegates to the external `dedupe`
library, which is not part of this repository.  The definitions below are
modelled from the spec (§4.7 Clustering Engine): score every candidate pair,
put an edge between two record identifiers when the predicted match
probability is at or above the threshold, take connected components as
clusters (singletons included), and give each member the score of its
strongest qualifying edge into its cluster, with the maximal score 1 for
singleton clusters. -/

/-- Remove the first cluster containing `x` from a list of clusters,
returning it together with the remaining clusters. -/
def extractCluster (x : String) : List (List String) → Option (List String × List (List String))
  | [] => none
  | c :: cs =>
    match c.contains x with
    | true => some (c, cs)
    | false =>
      match extractCluster x cs with
      | none => none
      | some (c0, rest) => some (c0, c :: rest)

/-- Merge the clusters containing `a` and `b` (no-op when either is absent or
they already share a cluster): one union-find step of the connected-components
construction. -/
def addEdge (cs : List (List String)) (a b : String) : List (List String) :=
  match extractCluster a cs with
  | none => cs
  | some (ca, rest) =>
    match ca.contains b with
    | true => cs
    | false =>
      match extractCluster b rest with
      | none => cs
      | some (cb, rest2) => (ca ++ cb) :: rest2

/-- Modelled from the spec: connected components of the above-threshold match
graph, starting from one singleton cluster per record identifier and merging
along each edge. -/
def clusterIds (ids : List String) (edges : List (String × String)) : List (List String) :=
  edges.foldl (fun cs e => addEdge cs e.1 e.2) (ids.map (fun i => [i]))

/-- All unordered candidate pairs of identifiers (the exhaustive-within-blocks
sampling pass of the spec, with blocking kept abstract: every pair is a
candidate). -/
def allPairs : List String → List (String × String)
  | [] => []
  | x :: xs => xs.map (fun y => (x, y)) ++ allPairs xs

/-- The record stored under identifier `i` (empty record when absent). -/
def recordOf (d : Data) (i : String) : Record :=
  ((d.find? (fun p => p.1 == i)).map (fun p => p.2)).getD []

/-- Predicted match probability of a pair of identifiers under a pairwise
classifier over records. -/
def pairScore (classifier : Record → Record → Rat) (d : Data) (a b : String) : Rat :=
  classifier (recordOf d a) (recordOf d b)

/-- Modelled from the spec: a member's confidence in its cluster is the score
of its strongest qualifying edge into the cluster; a singleton cluster gets
the maximal / sentinel score 1. -/
def memberConfidence (score : String → String → Rat) (threshold : Rat)
    (c : List String) (x : String) : Rat :=
  if c.length ≤ 1 then 1
  else
    ((c.filter (fun y => y != x && decide (threshold ≤ score x y))).map
      (fun y => score x y)).foldl max 0

/-- Modelled from the spec: `deduper.match(data, threshold)` — the external
dedupe library's clustering pass.  Returns, per cluster, the member
identifiers together with their per-member confidence scores. -/
def dedupe_match (d : Data) (classifier : Record → Record → Rat) (threshold : Rat) :
    List (List String × List Rat) :=
  let ids := d.map (fun p => p.1)
  let score := pairScore classifier d
  let edges := (allPairs ids).filter (fun p => decide (threshold ≤ score p.1 p.2))
  let cs := clusterIds ids edges
  cs.map (fun c => (c, c.map (memberConfidence score threshold c)))

/-- The header row written by `CSVDeduplicator.deduplicate`
(src/main.py line 123): `writer.writerow(["id", "Cluster ID", "confidence_score"])`. -/
def outputHeader : List String := ["id", "Cluster ID", "confidence_score"]

/-- The data rows written by `CSVDeduplicator.deduplicate`
(src/main.py lines 125–127): for each cluster (enumerated to give the cluster
id), one `(record_id, cluster_id, score)` row per member.  The threshold
passed to `match` is the literal `0.5` of line 119, written `mkRat 1 2`. -/
def deduplicate_rows (d : Data) (classifier : Record → Record → Rat) :
    List (String × Nat × Rat) :=
  let clustered := dedupe_match d classifier (mkRat 1 2)
  (clustered.enum.map (fun p =>
    (p.2.1.zip p.2.2).map (fun rs => (rs.1, p.1, rs.2)))).flatten

/-! ## Deduper setup, persistence and the labeling loop as an event trace -/

/-- Observable actions of `setup_deduper` / `save_settings_and_training`:
file-handle acquisition and release, the interactive labeling call
(`dedupe.console_label`, the oracle), and the training/writing steps. -/
inductive Event where
  | openFile (path : String) (mode : String)
  | closeFile (path : String)
  | prepareTraining
  | oracleLabel
  | trainClassifier
  | writeTraining
  | writeSettings
  deriving DecidableEq, Repr

/-- A saved classifier artifact (the settings file's contents): opaque
parameters plus the field schema it was trained against (spec §3 Trained
Classifier). -/
structure SettingsBlob where
  schema : List String
  deriving DecidableEq, Repr

/-- The deduper object after setup: either a `StaticDedupe` loaded from the
settings file, or a freshly trained `dedupe.Dedupe`. -/
inductive DeduperKind where
  | staticDeduper (blob : SettingsBlob)
  | trainedDeduper (fieldDefs : List FieldDef)
  deriving DecidableEq, Repr

/-- Modelled from the spec: schema compatibility of a saved classifier with
the current field definitions (the source performs no such check; this
predicate exists so that claims mentioning compatibility are statable). -/
def schemaCompatible (blob : SettingsBlob) (defs : List FieldDef) : Bool :=
  blob.schema == defs.map (fun fd => fd.field)

/-- `CSVDeduplicator.active_learning` (src/main.py lines 99–103): one call to
`dedupe.console_label`, i.e. one interactive oracle-labeling session. -/
def active_learning : List Event := [Event.oracleLabel]

/-- `CSVDeduplicator.save_settings_and_training` (src/main.py lines 105–113):
two `with open(...)` blocks, training file first, then settings file.  The
booleans say whether each write succeeds; a failed write propagates an I/O
error but the `with` block still closes the handle. -/
def save_settings_and_training (trainingFile settingsFile : String)
    (tOk sOk : Bool) : Option PyError × List Event :=
  if tOk then
    let tEvents := [Event.openFile trainingFile "w", Event.writeTraining,
      Event.closeFile trainingFile]
    if sOk then
      (none, tEvents ++ [Event.openFile settingsFile "wb", Event.writeSettings,
        Event.closeFile settingsFile])
    else
      (some PyError.ioError, tEvents ++ [Event.openFile settingsFile "wb",
        Event.closeFile settingsFile])
  else
    (some PyError.ioError, [Event.openFile trainingFile "w",
      Event.closeFile trainingFile])

/-- `CSVDeduplicator.setup_deduper` (src/main.py lines 83–97).  `settings` is
the contents of the settings file when it exists (`os.path.exists`), `none`
when it does not.  When the file exists the deduper is
`StaticDedupe(open(self.settings_file, "rb"))` — a bare `open` with no `with`
block and no close; otherwise the training path runs: `prepare_training`,
`active_learning` (the oracle), `train`, then `save_settings_and_training`. -/
def setup_deduper (settingsFile trainingFile : String)
    (settings : Option SettingsBlob) (fields : List String) (tOk sOk : Bool) :
    Except PyError DeduperKind × List Event :=
  match settings with
  | some blob =>
    (Except.ok (DeduperKind.staticDeduper blob), [Event.openFile settingsFile "rb"])
  | none =>
    let pre := [Event.prepareTraining] ++ active_learning ++ [Event.trainClassifier]
    let saved := save_settings_and_training trainingFile settingsFile tOk sOk
    match saved.1 with
    | some e => (Except.error e, pre ++ saved.2)
    | none => (Except.ok (DeduperKind.trainedDeduper (define_fields fields)), pre ++ saved.2)

/-- Paths of the file handles opened in a trace. -/
def opensOf (es : List Event) : List String :=
  es.filterMap (fun e => match e with | Event.openFile p _ => some p | _ => none)

/-- Paths of the file handles closed in a trace. -/
def closesOf (es : List Event) : List String :=
  es.filterMap (fun e => match e with | Event.closeFile p => some p | _ => none)

/-- Two lists hold the same multiset of strings. -/
def sameBag (l1 l2 : List String) : Bool :=
  l1.length == l2.length && l1.all (fun x => l1.count x == l2.count x)

/-- A trace releases every file handle it acquires: the multiset of opened
paths equals the multiset of closed paths. -/
def handlesReleased (es : List Event) : Bool :=
  sameBag (opensOf es) (closesOf es)

/-! ## Lemmas: the cluster construction permutes the identifier list -/

theorem extractCluster_perm {x : String} :
    ∀ {cs : List (List String)} {c : List String} {rest : List (List String)},
      extractCluster x cs = some (c, rest) → cs.Perm (c :: rest)
  | [], _, _, h => by simp [extractCluster] at h
  | c0 :: cs, c, rest, h => by
    rw [extractCluster] at h
    cases hc : c0.contains x with
    | true =>
      rw [hc] at h
      simp only [Option.some.injEq, Prod.mk.injEq] at h
      obtain ⟨h1, h2⟩ := h
      subst h1; subst h2
      exact List.Perm.refl _
    | false =>
      rw [hc] at h
      cases hrec : extractCluster x cs with
      | none => rw [hrec] at h; simp at h
      | some pr =>
        rw [hrec] at h
        simp only [Option.some.injEq, Prod.mk.injEq] at h
        obtain ⟨h1, h2⟩ := h
        subst h1; subst h2
        have ih := extractCluster_perm (x := x) hrec
        exact (List.Perm.cons c0 ih).trans (List.Perm.swap _ _ _)

theorem addEdge_flatten_perm (cs : List (List String)) (a b : String) :
    (addEdge cs a b).flatten.Perm cs.flatten := by
  cases ha : extractCluster a cs with
  | none =>
    simp only [addEdge, ha]
    exact List.Perm.refl _
  | some pa =>
    obtain ⟨ca, rest⟩ := pa
    cases hb : ca.contains b with
    | true =>
      simp only [addEdge, ha, hb]
      exact List.Perm.refl _
    | false =>
      cases hb2 : extractCluster b rest with
      | none =>
        simp only [addEdge, ha, hb, hb2]
        exact List.Perm.refl _
      | some pb =>
        obtain ⟨cb, rest2⟩ := pb
        have hEq : addEdge cs a b = (ca ++ cb) :: rest2 := by
          simp only [addEdge, ha, hb, hb2]
        rw [hEq]
        have h1 : cs.Perm (ca :: rest) := extractCluster_perm ha
        have h2 : rest.Perm (cb :: rest2) := extractCluster_perm hb2
        have h5 : rest.flatten.Perm (cb ++ rest2.flatten) := by
          simpa using h2.flatten
        have hgoal : ((ca ++ cb) :: rest2).flatten.Perm (ca :: rest).flatten := by
          simp only [List.flatten_cons, List.append_assoc]
          exact List.Perm.append_left ca h5.symm
        exact hgoal.trans h1.flatten.symm

theorem clusterIds_flatten_perm (ids : List String) (edges : List (String × String)) :
    (clusterIds ids edges).flatten.Perm ids := by
  unfold clusterIds
  suffices h : ∀ (es : List (String × String)) (cs : List (List String)),
      (es.foldl (fun cs e => addEdge cs e.1 e.2) cs).flatten.Perm cs.flatten by
    refine (h edges _).trans ?_
    have : (ids.map (fun i => [i])).flatten = ids := by
      induction ids with
      | nil => rfl
      | cons x xs ih => simp [ih]
    rw [this]
  intro es
  induction es with
  | nil => intro cs; exact List.Perm.refl _
  | cons e es ih =>
    intro cs
    exact (ih (addEdge cs e.1 e.2)).trans (addEdge_flatten_perm cs e.1 e.2)

theorem zip_map_fst (c : List String) (f : String → Rat) :
    ((c.zip (c.map f)).map (fun rs => rs.1)) = c := by
  induction c with
  | nil => rfl
  | cons x xs ih => simpa using ih

theorem dedup_rows_ids (mc : List String → String → Rat) (n : Nat)
    (cs : List (List String)) :
    ((((cs.map (fun c => (c, c.map (mc c)))).enumFrom n).map
        (fun p => (p.2.1.zip p.2.2).map (fun rs => (rs.1, p.1, rs.2)))).flatten).map
      (fun r => r.1) = cs.flatten := by
  induction cs generalizing n with
  | nil => rfl
  | cons c cs ih =>
    simp only [List.map_cons, List.enumFrom_cons, List.flatten_cons, List.map_append,
      List.map_map]
    rw [ih]
    congr 1
    have h1 : ((c.zip (c.map (mc c))).map
        ((fun r : String × Nat × Rat => r.1) ∘ (fun rs : String × Rat => (rs.1, n, rs.2))))
        = (c.zip (c.map (mc c))).map (fun rs => rs.1) := by
      apply List.map_congr_left
      intro a _
      rfl
    calc ((c.zip (c.map (mc c))).map
          ((fun r : String × Nat × Rat => r.1) ∘ (fun rs : String × Rat => (rs.1, n, rs.2))))
        = (c.zip (c.map (mc c))).map (fun rs => rs.1) := h1
      _ = c := zip_map_fst c (mc c)

/-! ## Lemmas: the record store (`read_data`) -/

theorem dictInsert_keys_mem (d : Data) (k : String) (v : Record)
    (h : d.any (fun p => p.1 == k) = true) :
    (dictInsert d k v).map (fun p => p.1) = d.map (fun p => p.1) := by
  unfold dictInsert
  rw [if_pos h, List.map_map]
  apply List.map_congr_left
  intro p _
  by_cases hpk : p.1 == k
  · simp only [Function.comp_apply, hpk, if_pos]
    exact (eq_of_beq hpk).symm
  · have hne : p.1 ≠ k := by simpa using hpk
    simp [hne]

theorem dictInsert_keys_not_mem (d : Data) (k : String) (v : Record)
    (h : d.any (fun p => p.1 == k) = false) :
    (dictInsert d k v).map (fun p => p.1) = d.map (fun p => p.1) ++ [k] := by
  unfold dictInsert
  rw [if_neg (by simp [h]), List.map_append]
  rfl

theorem dictInsert_keys_nodup (d : Data) (k : String) (v : Record)
    (h : (d.map (fun p => p.1)).Nodup) :
    ((dictInsert d k v).map (fun p => p.1)).Nodup := by
  cases hc : d.any (fun p => p.1 == k) with
  | true => rw [dictInsert_keys_mem d k v hc]; exact h
  | false =>
    rw [dictInsert_keys_not_mem d k v hc]
    have hk : k ∉ d.map (fun p => p.1) := by
      intro hmem
      obtain ⟨p, hp, hpe⟩ := List.mem_map.mp hmem
      have := List.any_eq_false.mp hc p hp
      simp [hpe] at this
    simp [List.nodup_append, h, hk]

theorem mem_dictInsert (d : Data) (k : String) (v : Record) (p : String × Record)
    (h : p ∈ dictInsert d k v) : p ∈ d ∨ p = (k, v) := by
  unfold dictInsert at h
  by_cases hc : d.any (fun q => q.1 == k) = true
  · rw [if_pos hc] at h
    obtain ⟨q, hq, hEq⟩ := List.mem_map.mp h
    by_cases hqk : q.1 == k
    · right; rw [← hEq]; simp [hqk]
    · left; rw [← hEq]; simp only [hqk]; simpa using hq
  · rw [if_neg hc] at h
    rcases List.mem_append.mp h with h1 | h2
    · left; exact h1
    · right; simpa using h2

theorem readDataAux_keys_nodup :
    ∀ (rows : List Row) (acc d : Data),
      (acc.map (fun p => p.1)).Nodup → readDataAux rows acc = Except.ok d →
      (d.map (fun p => p.1)).Nodup
  | [], acc, d, hacc, h => by
    simp only [readDataAux, Except.ok.injEq] at h
    subst h; exact hacc
  | row :: rest, acc, d, hacc, h => by
    rw [readDataAux] at h
    cases hid : fieldValue row "id" with
    | none => rw [hid] at h; simp at h
    | some rid =>
      rw [hid] at h
      exact readDataAux_keys_nodup rest _ d (dictInsert_keys_nodup _ _ _ hacc) h

theorem read_data_keys_nodup (rows : List Row) (d : Data)
    (h : read_data rows = Except.ok d) : (d.map (fun p => p.1)).Nodup :=
  readDataAux_keys_nodup rows [] d (by simp) h

theorem readDataAux_mem :
    ∀ (rows : List Row) (acc d : Data), readDataAux rows acc = Except.ok d →
      ∀ p ∈ d, p ∈ acc ∨
        ∃ row ∈ rows, fieldValue row "id" = some p.1 ∧ p.2 = cleanRow row
  | [], acc, d, h, p, hp => by
    simp only [readDataAux, Except.ok.injEq] at h
    subst h; exact Or.inl hp
  | row :: rest, acc, d, h, p, hp => by
    rw [readDataAux] at h
    cases hid : fieldValue row "id" with
    | none => rw [hid] at h; simp at h
    | some rid =>
      rw [hid] at h
      rcases readDataAux_mem rest _ d h p hp with h1 | ⟨row2, hrow2, hfv, hcl⟩
      · rcases mem_dictInsert acc rid (cleanRow row) p h1 with h2 | h2
        · exact Or.inl h2
        · subst h2
          exact Or.inr ⟨row, by simp, by simpa using hid, rfl⟩
      · exact Or.inr ⟨row2, by simp [hrow2], hfv, hcl⟩

theorem read_data_mem (rows : List Row) (d : Data)
    (h : read_data rows = Except.ok d) :
    ∀ p ∈ d, ∃ row ∈ rows, fieldValue row "id" = some p.1 ∧ p.2 = cleanRow row := by
  intro p hp
  rcases readDataAux_mem rows [] d h p hp with h1 | h2
  · simp at h1
  · exact h2

theorem readDataAux_append :
    ∀ (xs ys : List Row) (acc : Data),
      readDataAux (xs ++ ys) acc =
        match readDataAux xs acc with
        | Except.ok d => readDataAux ys d
        | Except.error e => Except.error e
  | [], ys, acc => by simp [readDataAux]
  | row :: rest, ys, acc => by
    rw [List.cons_append, readDataAux, readDataAux]
    cases fieldValue row "id" with
    | none => rfl
    | some rid => exact readDataAux_append rest ys _

theorem fieldValue_cleanRow (row : Row) (k : String) :
    fieldValue (cleanRow row) k = (fieldValue row k).map normalize := by
  induction row with
  | nil => rfl
  | cons kv rest ih =>
    by_cases h : kv.1 == k
    · simp [fieldValue, cleanRow, List.find?_cons_of_pos, h]
    · simp only [cleanRow, List.map_cons] at *
      simp only [fieldValue] at *
      rw [List.find?_cons_of_neg, List.find?_cons_of_neg]
      · exact ih
      · simpa using h
      · simpa using h

/-! ## Lemmas: confidence-score bounds -/

theorem foldl_max_le (l : List Rat) (init : Rat) (h1 : init ≤ 1)
    (h2 : ∀ x ∈ l, x ≤ 1) : l.foldl max init ≤ 1 := by
  induction l generalizing init with
  | nil => exact h1
  | cons x xs ih =>
    apply ih
    · exact max_le h1 (h2 x (by simp))
    · intro y hy; exact h2 y (by simp [hy])

theorem le_foldl_max (l : List Rat) (init : Rat) : init ≤ l.foldl max init := by
  induction l generalizing init with
  | nil => exact le_refl _
  | cons x xs ih => exact le_trans (le_max_left init x) (ih (max init x))

theorem memberConfidence_bounds (score : String → String → Rat) (threshold : Rat)
    (c : List String) (x : String)
    (hs : ∀ a b, 0 ≤ score a b ∧ score a b ≤ 1) :
    0 ≤ memberConfidence score threshold c x ∧
      memberConfidence score threshold c x ≤ 1 := by
  unfold memberConfidence
  by_cases h : c.length ≤ 1
  · rw [if_pos h]; exact ⟨zero_le_one, le_refl _⟩
  · rw [if_neg h]
    constructor
    · exact le_foldl_max _ 0
    · apply foldl_max_le _ 0 zero_le_one
      intro v hv
      obtain ⟨y, _, hye⟩ := List.mem_map.mp hv
      rw [← hye]
      exact (hs x y).2

theorem memberConfidence_singleton (score : String → String → Rat) (threshold : Rat)
    (c : List String) (x : String) (h : c.length ≤ 1) :
    memberConfidence score threshold c x = 1 := by
  unfold memberConfidence
  rw [if_pos h]

theorem snd_mem_of_mem_enumFrom {α : Type} {p : Nat × α} :
    ∀ {l : List α} {n : Nat}, p ∈ l.enumFrom n → p.2 ∈ l := by
  intro l
  induction l with
  | nil => intro n h; simp [List.enumFrom] at h
  | cons x xs ih =>
    intro n h
    rw [List.enumFrom_cons] at h
    rcases List.mem_cons.mp h with h1 | h2
    · rw [h1]; simp
    · exact List.mem_cons_of_mem _ (ih h2)

/-- Every emitted output row's score is a `memberConfidence` of some cluster
member of the matching pass. -/
theorem deduplicate_rows_score_shape (d : Data) (classifier : Record → Record → Rat)
    (r : String × Nat × Rat) (hr : r ∈ deduplicate_rows d classifier) :
    ∃ c x, r.2.2 = memberConfidence (pairScore classifier d) (mkRat 1 2) c x := by
  simp only [deduplicate_rows, dedupe_match] at hr
  obtain ⟨s, hs, hrs⟩ := List.mem_flatten.mp hr
  obtain ⟨p, hp, hps⟩ := List.mem_map.mp hs
  rw [← hps] at hrs
  obtain ⟨rs, hrsmem, hre⟩ := List.mem_map.mp hrs
  have hpmem := snd_mem_of_mem_enumFrom hp
  obtain ⟨c, _, hce⟩ := List.mem_map.mp hpmem
  have h2 : rs.2 ∈ p.2.2 := (List.of_mem_zip hrsmem).2
  rw [← hce] at h2
  simp only at h2
  obtain ⟨x, _, hxe⟩ := List.mem_map.mp h2
  refine ⟨c, x, ?_⟩
  rw [← hre]
  simpa using hxe.symm

/-- Modelled from the spec: a trained classifier that rewards exact
post-normalization equality on the given fields — maximal match probability 1
when every field value agrees exactly, 0 otherwise (the classifier the C5
scenario of the spec hypothesises). -/
def exactEqualityClassifier (flds : List String) (r1 r2 : Record) : Rat :=
  if flds.all (fun f => fieldValue r1 f == fieldValue r2 f) then 1 else 0

/-! ## Claims -/

/-- C1: for every valid input dataset, the deduplication run's output contains
every record identifier exactly once — the emitted rows form a partition of
the record identifiers (singletons included as size-one clusters).  Stated as:
the output rows' identifier column is a permutation of the loaded record
keys, those keys carry no duplicates, and hence every key occurs in the
output exactly once.  The clustering pass itself is modelled from the spec
(`dedupe_match`), since `deduper.match` lives in the external dedupe
library. -/
theorem C1_partition_property (rows : List Row) (d : Data)
    (classifier : Record → Record → Rat)
    (h : read_data rows = Except.ok d) :
    ((deduplicate_rows d classifier).map (fun r => r.1)).Perm (d.map (fun p => p.1)) ∧
    (d.map (fun p => p.1)).Nodup ∧
    ∀ i ∈ d.map (fun p => p.1),
      ((deduplicate_rows d classifier).map (fun r => r.1)).count i = 1 := by
  have hperm : ((deduplicate_rows d classifier).map (fun r => r.1)).Perm
      (d.map (fun p => p.1)) := by
    have hids : (deduplicate_rows d classifier).map (fun r => r.1) =
        (clusterIds (d.map (fun p => p.1))
          ((allPairs (d.map (fun p => p.1))).filter
            (fun p => decide (mkRat 1 2 ≤ pairScore classifier d p.1 p.2)))).flatten := by
      simp only [deduplicate_rows, dedupe_match, List.enum]
      exact dedup_rows_ids _ 0 _
    rw [hids]
    exact clusterIds_flatten_perm _ _
  have hnodup : (d.map (fun p => p.1)).Nodup := read_data_keys_nodup rows d h
  refine ⟨hperm, hnodup, fun i hi => ?_⟩
  rw [hperm.count_eq]
  exact List.count_eq_one_of_mem hnodup hi

/-- Witness for C1 at a concrete two-record input. -/
theorem C1_partition_property_witness :
    ((deduplicate_rows [("1", [("id", "1"), ("name", "a")]),
        ("2", [("id", "2"), ("name", "b")])] (fun _ _ => 0)).map (fun r => r.1)).Perm
      ([("1", [("id", "1"), ("name", "a")]),
        ("2", [("id", "2"), ("name", "b")])].map (fun p => p.1)) ∧
    ([("1", [("id", "1"), ("name", "a")]),
        ("2", [("id", "2"), ("name", "b")])].map
          (fun p : String × Record => p.1)).Nodup ∧
    ∀ i ∈ [("1", [("id", "1"), ("name", "a")]),
        ("2", [("id", "2"), ("name", "b")])].map (fun p : String × Record => p.1),
      ((deduplicate_rows [("1", [("id", "1"), ("name", "a")]),
        ("2", [("id", "2"), ("name", "b")])] (fun _ _ => 0)).map (fun r => r.1)).count i = 1 :=
  C1_partition_property
    [[("id", "1"), ("name", "a")], [("id", "2"), ("name", "b")]]
    [("1", [("id", "1"), ("name", "a")]), ("2", [("id", "2"), ("name", "b")])]
    (fun _ _ => 0) (by decide)

/-- C2: whenever a valid, schema-compatible saved classifier artifact exists
at the settings path, `setup_deduper` loads it as a `StaticDedupe` and the
run's trace contains neither an oracle-labeling step nor a training step:
the saved-classifier fast path skips labeling and retraining entirely.  (The
source gates only on `os.path.exists`, so existence plus compatibility
certainly takes the fast path.) -/
theorem C2_saved_classifier_fast_path (settingsFile trainingFile : String)
    (blob : SettingsBlob) (fields : List String) (tOk sOk : Bool)
    (hcompat : schemaCompatible blob (define_fields fields) = true) :
    (setup_deduper settingsFile trainingFile (some blob) fields tOk sOk).1 =
      Except.ok (DeduperKind.staticDeduper blob) ∧
    Event.oracleLabel ∉
      (setup_deduper settingsFile trainingFile (some blob) fields tOk sOk).2 ∧
    Event.trainClassifier ∉
      (setup_deduper settingsFile trainingFile (some blob) fields tOk sOk).2 := by
  refine ⟨rfl, ?_, ?_⟩ <;> simp [setup_deduper]

/-- Witness for C2 at concrete paths, schema and fields. -/
theorem C2_saved_classifier_fast_path_witness :
    (setup_deduper "settings.dedupe" "training.json"
        (some { schema := ["name"] }) ["name"] true true).1 =
      Except.ok (DeduperKind.staticDeduper { schema := ["name"] }) ∧
    Event.oracleLabel ∉
      (setup_deduper "settings.dedupe" "training.json"
        (some { schema := ["name"] }) ["name"] true true).2 ∧
    Event.trainClassifier ∉
      (setup_deduper "settings.dedupe" "training.json"
        (some { schema := ["name"] }) ["name"] true true).2 :=
  C2_saved_classifier_fast_path "settings.dedupe" "training.json"
    { schema := ["name"] } ["name"] true true (by decide)

/-- C3 counterexample: a saved classifier whose embedded schema
(`["old_field"]`) disagrees with the current field definitions (`["name"]`)
is loaded successfully — no `ModelCompatibilityError` is raised.  The claim
that loading raises before clustering is false on the code. -/
theorem C3_counterexample :
    schemaCompatible { schema := ["old_field"] } (define_fields ["name"]) = false ∧
    (setup_deduper "settings.dedupe" "training.json"
        (some { schema := ["old_field"] }) ["name"] true true).1 =
      Except.ok (DeduperKind.staticDeduper { schema := ["old_field"] }) ∧
    (setup_deduper "settings.dedupe" "training.json"
        (some { schema := ["old_field"] }) ["name"] true true).1 ≠
      Except.error PyError.modelCompatibilityError :=
  ⟨rfl, rfl, by decide⟩

/-- C3 amended: when the saved classifier artifact exists, `setup_deduper`
loads it unconditionally — it performs no schema-compatibility check, raises
no error at all (in particular no `ModelCompatibilityError`), and never falls
back to retraining (no oracle, no training step), even when the embedded
schema disagrees with the current field definitions. -/
theorem C3_amended_loads_unconditionally (settingsFile trainingFile : String)
    (blob : SettingsBlob) (fields : List String) (tOk sOk : Bool)
    (hincompat : schemaCompatible blob (define_fields fields) = false) :
    (setup_deduper settingsFile trainingFile (some blob) fields tOk sOk).1 =
      Except.ok (DeduperKind.staticDeduper blob) ∧
    (∀ e : PyError,
      (setup_deduper settingsFile trainingFile (some blob) fields tOk sOk).1 ≠
        Except.error e) ∧
    Event.oracleLabel ∉
      (setup_deduper settingsFile trainingFile (some blob) fields tOk sOk).2 ∧
    Event.trainClassifier ∉
      (setup_deduper settingsFile trainingFile (some blob) fields tOk sOk).2 := by
  refine ⟨rfl, fun e => ?_, ?_, ?_⟩ <;> simp [setup_deduper]

/-- Witness for C3 amended at a concrete incompatible schema. -/
theorem C3_amended_loads_unconditionally_witness :
    (setup_deduper "settings.dedupe" "training.json"
        (some { schema := ["old_field"] }) ["name"] true true).1 =
      Except.ok (DeduperKind.staticDeduper { schema := ["old_field"] }) ∧
    (∀ e : PyError,
      (setup_deduper "settings.dedupe" "training.json"
        (some { schema := ["old_field"] }) ["name"] true true).1 ≠
        Except.error e) ∧
    Event.oracleLabel ∉
      (setup_deduper "settings.dedupe" "training.json"
        (some { schema := ["old_field"] }) ["name"] true true).2 ∧
    Event.trainClassifier ∉
      (setup_deduper "settings.dedupe" "training.json"
        (some { schema := ["old_field"] }) ["name"] true true).2 :=
  C3_amended_loads_unconditionally "settings.dedupe" "training.json"
    { schema := ["old_field"] } ["name"] true true (by decide)

/-- C4 counterexample: two input rows with the same identifier `"1"` load
successfully — no error of any kind — and the second row silently overwrites
the first (the stored name is `"b"`, the first row's `"a"` is gone).  The
claim that loading fails with `DataFormatError` on duplicate identifiers and
never silently overwrites is false on the code. -/
theorem C4_counterexample :
    read_data [[("id", "1"), ("name", "a")], [("id", "1"), ("name", "b")]] =
      Except.ok [("1", [("id", "1"), ("name", "b")])] := by decide

/-- C4 amended: loading an input whose rows all carry an `id` column never
fails; appending a row whose identifier was already seen overwrites the
stored record for that identifier (Python dict assignment, `dictInsert`).
When a row has no `id` column, loading raises Python's built-in `KeyError`
(there is no `DataFormatError` in the code). -/
theorem C4_amended_overwrite_and_keyerror :
    (∀ (rows : List Row) (row : Row) (d : Data) (i : String),
        read_data rows = Except.ok d → fieldValue row "id" = some i →
        read_data (rows ++ [row]) = Except.ok (dictInsert d i (cleanRow row))) ∧
    (∀ (row : Row) (rest : List Row), fieldValue row "id" = none →
        read_data (row :: rest) = Except.error (PyError.keyError "id")) := by
  constructor
  · intro rows row d i h hid
    unfold read_data at *
    rw [readDataAux_append, h]
    simp [readDataAux, hid]
  · intro row rest hid
    unfold read_data
    rw [readDataAux]
    simp [hid]

/-- Witness for C4 amended: overwriting a duplicate identifier at a concrete
input. -/
theorem C4_amended_overwrite_and_keyerror_witness :
    read_data ([[("id", "1"), ("name", "a")]] ++ [[("id", "1"), ("name", "b")]]) =
      Except.ok (dictInsert [("1", [("id", "1"), ("name", "a")])] "1"
        (cleanRow [("id", "1"), ("name", "b")])) :=
  C4_amended_overwrite_and_keyerror.1
    [[("id", "1"), ("name", "a")]] [("id", "1"), ("name", "b")]
    [("1", [("id", "1"), ("name", "a")])] "1" (by decide) (by decide)

/-- C5 counterexample: the records `{id:1, name:"john smith"}` and
`{id:2, name:"John  Smith "}` (double internal space) do NOT normalize to the
identical string — `strip().lower()` trims only surrounding whitespace, so
the names load as `"john smith"` and `"john  smith"` — and under the
spec's exact-post-normalization-equality classifier the matching pass at
threshold `0.5` leaves them in two singleton clusters rather than one. -/
theorem C5_counterexample :
    read_data [[("id", "1"), ("name", "john smith")],
               [("id", "2"), ("name", "John  Smith ")]] =
      Except.ok [("1", [("id", "1"), ("name", "john smith")]),
                 ("2", [("id", "2"), ("name", "john  smith")])] ∧
    normalize "john smith" ≠ normalize "John  Smith " ∧
    dedupe_match [("1", [("id", "1"), ("name", "john smith")]),
                  ("2", [("id", "2"), ("name", "john  smith")])]
        (exactEqualityClassifier ["name"]) (mkRat 1 2) =
      [(["1"], [1]), (["2"], [1])] :=
  ⟨by decide, by decide, by decide⟩

/-- C5 amended: internal whitespace survives normalization, so the original
pair of records does not cluster; with the internal double space removed
(`{id:2, name:"John Smith "}`) the two names do normalize to the identical
string `"john smith"`, and the matching pass at threshold 0.5 under the
exact-post-normalization-equality classifier puts both records in one
cluster with the maximal confidence score 1 for each member. -/
theorem C5_amended_single_space_clusters :
    read_data [[("id", "1"), ("name", "john smith")],
               [("id", "2"), ("name", "John Smith ")]] =
      Except.ok [("1", [("id", "1"), ("name", "john smith")]),
                 ("2", [("id", "2"), ("name", "john smith")])] ∧
    dedupe_match [("1", [("id", "1"), ("name", "john smith")]),
                  ("2", [("id", "2"), ("name", "john smith")])]
        (exactEqualityClassifier ["name"]) (mkRat 1 2) =
      [(["1", "2"], [1, 1])] :=
  ⟨by decide, by decide⟩

/-- C6 counterexample: an empty field value loads as the empty string itself
— `"".strip().lower() == ""` — not as a distinct missing marker.  The claim
that absent/empty values become an explicit marker distinct from the empty
string is false on the code. -/
theorem C6_counterexample :
    read_data [[("id", "1"), ("name", "")]] =
      Except.ok [("1", [("id", "1"), ("name", "")])] ∧
    fieldValue (recordOf [("1", [("id", "1"), ("name", "")])] "1") "name" =
      some "" :=
  ⟨by decide, by decide⟩

/-- C6 amended: loading normalizes every field value by trimming surrounding
whitespace and case-folding (`normalize`), and nothing more: an empty value
stays the empty string — no missing marker is introduced at load time
(missing-value handling is instead delegated to the
`String(field, has_missing=True)` field definitions). -/
theorem C6_amended_normalization (rows : List Row) (d : Data)
    (h : read_data rows = Except.ok d) :
    (∀ p ∈ d, ∃ row ∈ rows, ∀ k : String,
        fieldValue p.2 k = (fieldValue row k).map normalize) ∧
    normalize "" = "" := by
  constructor
  · intro p hp
    obtain ⟨row, hrow, _, hcl⟩ := read_data_mem rows d h p hp
    exact ⟨row, hrow, fun k => by rw [hcl, fieldValue_cleanRow]⟩
  · rfl

/-- Witness for C6 amended at a concrete one-row input with an empty value. -/
theorem C6_amended_normalization_witness :
    (∃ row ∈ [[("id", "1"), ("name", " A ")]], ∀ k : String,
        fieldValue ("1", [("id", "1"), ("name", "a")]).2 k =
          (fieldValue row k).map normalize) ∧
    normalize "" = "" :=
  ⟨(C6_amended_normalization [[("id", "1"), ("name", " A ")]]
      [("1", [("id", "1"), ("name", "a")])] (by decide)).1
      ("1", [("id", "1"), ("name", "a")]) (by decide),
   (C6_amended_normalization [[("id", "1"), ("name", " A ")]]
      [("1", [("id", "1"), ("name", "a")])] (by decide)).2⟩

/-- C7 counterexample: declaring the field `"ghost"`, which no loaded record
carries, does not fail — `define_fields` returns a
`String("ghost", has_missing=True)` definition and raises no `SchemaError`.
The claim that schema definition fails when a declared field is absent from
every record is false on the code. -/
theorem C7_counterexample :
    read_data [[("id", "1"), ("name", "a")]] =
      Except.ok [("1", [("id", "1"), ("name", "a")])] ∧
    fieldValue (recordOf [("1", [("id", "1"), ("name", "a")])] "1") "ghost" =
      none ∧
    define_fields ["ghost"] = [{ field := "ghost", hasMissing := true }] :=
  ⟨by decide, by decide, by decide⟩

/-- C7 amended: `define_fields` performs no validation whatsoever against the
loaded records — it consults only the configured field-name list and maps
each name to `String(field, has_missing=True)`, accepting silently any field
that no record carries. -/
theorem C7_amended_no_validation (fields : List String) :
    define_fields fields =
      fields.map (fun f => { field := f, hasMissing := true }) ∧
    (define_fields fields).length = fields.length :=
  ⟨rfl, by simp [define_fields]⟩

/-- C8 counterexample: the load path of persistence —
`StaticDedupe(open(self.settings_file, "rb"))` — opens the settings file with
a bare `open` and never closes it: its trace has an unmatched open.  The
claim that every persistence save/load operation releases its file handle on
all exit paths is false on the code. -/
theorem C8_counterexample :
    (setup_deduper "settings.dedupe" "training.json"
        (some { schema := ["name"] }) ["name"] true true).2 =
      [Event.openFile "settings.dedupe" "rb"] ∧
    handlesReleased (setup_deduper "settings.dedupe" "training.json"
        (some { schema := ["name"] }) ["name"] true true).2 = false :=
  ⟨rfl, by decide⟩

/-- C8 amended: the two save operations
(`save_settings_and_training`) are scoped `with open(...)` blocks whose
handles are released on every exit path, including failed writes; the load
path, however, opens the settings file unscoped and never closes it, so every
load trace leaves a handle open. -/
theorem C8_amended_save_scoped_load_leaks (trainingFile settingsFile : String)
    (tOk sOk : Bool) (blob : SettingsBlob) (fields : List String) :
    handlesReleased
      (save_settings_and_training trainingFile settingsFile tOk sOk).2 = true ∧
    handlesReleased
      (setup_deduper settingsFile trainingFile (some blob) fields tOk sOk).2 =
      false := by
  constructor
  · cases tOk <;> cases sOk <;>
      simp [save_settings_and_training, handlesReleased, opensOf, closesOf, sameBag]
  · simp [setup_deduper, handlesReleased, opensOf, closesOf, sameBag]

/-- C9 counterexample: the emitted header row is
`["id", "Cluster ID", "confidence_score"]` — the middle column is named
`"Cluster ID"`, not `cluster_id` as the claim states. -/
theorem C9_counterexample :
    outputHeader = ["id", "Cluster ID", "confidence_score"] ∧
    outputHeader ≠ ["id", "cluster_id", "confidence_score"] :=
  ⟨rfl, by decide⟩

/-- C9 amended: the header names the columns
`id, Cluster ID, confidence_score` (not `cluster_id`); provided the
classifier emits probabilities in [0,1], every emitted confidence score lies
in [0,1], and a singleton cluster's member gets the sentinel/maximal score 1.
(The scoring pass is the spec-modelled `dedupe_match`.) -/
theorem C9_amended_header_and_score_range (d : Data)
    (classifier : Record → Record → Rat)
    (hs : ∀ r1 r2, 0 ≤ classifier r1 r2 ∧ classifier r1 r2 ≤ 1) :
    outputHeader = ["id", "Cluster ID", "confidence_score"] ∧
    (∀ r ∈ deduplicate_rows d classifier, 0 ≤ r.2.2 ∧ r.2.2 ≤ 1) ∧
    (∀ (score : String → String → Rat) (threshold : Rat) (c : List String)
        (x : String), c.length ≤ 1 → memberConfidence score threshold c x = 1) := by
  refine ⟨rfl, ?_, fun score threshold c x hc =>
    memberConfidence_singleton score threshold c x hc⟩
  intro r hr
  obtain ⟨c, x, he⟩ := deduplicate_rows_score_shape d classifier r hr
  rw [he]
  exact memberConfidence_bounds _ _ c x (fun a b => hs _ _)

/-- Witness for C9 amended with a concrete dataset and the constant-zero
classifier. -/
theorem C9_amended_header_and_score_range_witness :
    outputHeader = ["id", "Cluster ID", "confidence_score"] ∧
    (∀ r ∈ deduplicate_rows [("1", [("id", "1")]), ("2", [("id", "2")])]
        (fun _ _ => 0), 0 ≤ r.2.2 ∧ r.2.2 ≤ 1) ∧
    (∀ (score : String → String → Rat) (threshold : Rat) (c : List String)
        (x : String), c.length ≤ 1 → memberConfidence score threshold c x = 1) :=
  C9_amended_header_and_score_range [("1", [("id", "1")]), ("2", [("id", "2")])]
    (fun _ _ => 0) (fun _ _ => ⟨le_refl 0, zero_le_one⟩)

/-- C10: the loaded collection is keyed by the raw identifier exactly as it
appears in the file, while the record stored under that key holds the
normalized (trimmed, case-folded) `id` value: every entry's key is the raw
`row["id"]` of some input row, its record is that row's cleaned mapping, and
the record's own `id` field is `normalize` of the key.  Hence identifiers
differing only in surrounding whitespace or case are distinct keys, and a key
need not equal its record's stored `id` value. -/
theorem C10_raw_keys_normalized_values (rows : List Row) (d : Data)
    (h : read_data rows = Except.ok d) :
    ∀ p ∈ d, ∃ row ∈ rows,
      fieldValue row "id" = some p.1 ∧
      p.2 = cleanRow row ∧
      fieldValue p.2 "id" = some (normalize p.1) := by
  intro p hp
  obtain ⟨row, hrow, hid, hcl⟩ := read_data_mem rows d h p hp
  refine ⟨row, hrow, hid, hcl, ?_⟩
  rw [hcl, fieldValue_cleanRow, hid]
  rfl

/-- Witness for C10: a key `"A "` (raw, untrimmed, uppercase) whose stored
record carries the normalized id `"a"`. -/
theorem C10_raw_keys_normalized_values_witness :
    ∃ row ∈ [[("id", "A "), ("name", "X")]],
      fieldValue row "id" = some "A " ∧
      ("A ", [("id", "a"), ("name", "x")]).2 = cleanRow row ∧
      fieldValue ("A ", [("id", "a"), ("name", "x")]).2 "id" =
        some (normalize "A ") :=
  C10_raw_keys_normalized_values [[("id", "A "), ("name", "X")]]
    [("A ", [("id", "a"), ("name", "x")])] (by decide)
    ("A ", [("id", "a"), ("name", "x")]) (by decide)

end IntelliMatch
